import Mathlib

/-!
Shallow embedding of the core of the pc-maintenance-dashboard repository:
the duplicate-file finder (`duplicate_finder.py`), the browser cleaner's
SQLite mutation protocol (`browser_cleaner.py`) and the temp-file cleaner
(`system_utils.py`), together with theorems about them.

Machine-level details are modelled as follows: file contents are carried as
byte lengths plus an abstract digest value (the code compares digests only
for equality), timestamps are naturals/rationals, and each fallible OS call
is represented by a flag on the model of the file recording whether the call
succeeds.
-/

namespace PCMD

/-! ## Content hasher (duplicate_finder.py, calculate_file_hash) -/

/-- Size cutoff used by calculate_file_hash: `100 * 1024 * 1024` bytes. -/
def maxFileSize : Nat := 100 * 1024 * 1024

/-- Scan ceiling used by count_files_in_directory (`max_files`) and
scan_directory (`max_scan_files`): 10000. -/
def maxScanFiles : Nat := 10000

/-- Model of one regular file as the duplicate finder sees it, in traversal
order: base name, lowercased suffix, whether os.path.getsize / os.stat
succeed, whether open/read succeeds, byte length, raw modification time, and
the MD5 digest of the content (an abstract value: equal content has equal
digest and the code only compares digests for equality). -/
structure SrcFile where
  path : String
  name : String
  ext : String
  statOk : Bool
  readable : Bool
  infoOk : Bool
  size : Nat
  mtime : Nat
  digest : Nat
deriving DecidableEq

/-- The chunked-read loop of calculate_file_hash (lines 34-40), recursing on
a fuel bound: every iteration consumes at least one byte of the remaining
count, so fuel equal to the initial remaining count is enough and the
fuel-exhausted case is never reached. -/
def readChunksAux (limit : Nat) : Nat → Nat → Nat → Bool
  | 0, remaining, _ => remaining == 0
  | fuel + 1, remaining, bytesRead =>
    if remaining = 0 then true
    else if limit < bytesRead + min remaining 4096 then false
    else readChunksAux limit fuel (remaining - min remaining 4096)
      (bytesRead + min remaining 4096)

/-- The chunked-read loop: 4096-byte chunks are consumed while a running byte
count is kept; after each chunk the count is compared with the limit using
strict greater-than and the read is abandoned (the Python `return None`)
when it exceeds the limit. -/
def readChunks (remaining bytesRead limit : Nat) : Bool :=
  readChunksAux limit remaining remaining bytesRead

/-- calculate_file_hash (lines 24-43): `none` when getsize/open/read raises
OSError or PermissionError, when the stat size strictly exceeds the 100 MiB
cutoff, or when the accumulated byte count strictly exceeds the cutoff during
the chunked read; otherwise the digest. -/
def calculate_file_hash (f : SrcFile) : Option Nat :=
  if !f.statOk || !f.readable then none
  else if maxFileSize < f.size then none
  else if readChunks f.size 0 maxFileSize then some f.digest
  else none

/-- get_file_info (lines 45-58): snapshot of path, size and timestamps, or
`none` when os.stat raises. The model keeps the raw mtime: the sort in
scan_directory re-reads it with os.path.getmtime, and the filesystem is not
mutated during a scan, so the re-read value equals the snapshot. -/
structure FileInfo where
  path : String
  size : Nat
  mtime : Nat
deriving DecidableEq

def get_file_info (f : SrcFile) : Option FileInfo :=
  if f.infoOk then some ⟨f.path, f.size, f.mtime⟩ else none

/-! ## Filesystem walker eligibility and the scan loop (scan_directory) -/

/-- The dotfile test of the walker: Python file.startswith of a period, i.e.
the first character of the base name is a period. -/
def startsWithDot (s : String) : Bool :=
  match s.data with
  | [] => false
  | c :: _ => c = '.'

/-- The per-file filter shared by count_files_in_directory (lines 78-92) and
scan_directory (lines 135-148): skip dotfiles, files whose getsize raises,
files below the minimum size, and — when the extension set is non-empty
(Python truthiness of the set) — files whose suffix is not in the set. -/
def eligible (minSize : Nat) (exts : List String) (f : SrcFile) : Bool :=
  !(startsWithDot f.name) && f.statOk && decide (minSize ≤ f.size) &&
    (exts.isEmpty || exts.contains f.ext)

/-- count_files_in_directory (lines 60-98): counts eligible files over the
traversal, returning the ceiling as soon as the count reaches it. -/
def count_files_in_directory (minSize : Nat) (exts : List String)
    (files : List SrcFile) : Nat :=
  files.foldl
    (fun c f =>
      if maxScanFiles ≤ c then c
      else if eligible minSize exts f then c + 1 else c) 0

/-- Running state of the scan loop: the digest → bucket association list
(defaultdict(list); key insertion order, appends at the bucket end) and the
scanned-file counter. -/
structure ScanState where
  file_hashes : List (Nat × List FileInfo)
  scanned_files : Nat
deriving DecidableEq

/-- Append a FileInfo to the bucket of a digest, creating the bucket at the
end of the association list on first insertion. -/
def addToBucket : List (Nat × List FileInfo) → Nat → FileInfo → List (Nat × List FileInfo)
  | [], h, fi => [(h, [fi])]
  | (k, fs) :: rest, h, fi =>
    if k = h then (k, fs ++ [fi]) :: rest
    else (k, fs) :: addToBucket rest h fi

/-- Per-file body of the scan loop in scan_directory (lines 131-165) on the
flattened traversal: both the inner and the outer loop break once
scanned_files reaches the ceiling (lines 132-133 and 168-169), so entries
after that point are untouched; an eligible file always increments
scanned_files, and it is bucketed only when both the hash and the info
snapshot succeed. -/
def scanStep (minSize : Nat) (exts : List String) (s : ScanState) (f : SrcFile) :
    ScanState :=
  if maxScanFiles ≤ s.scanned_files then s
  else if startsWithDot f.name then s
  else if !f.statOk then s
  else if f.size < minSize then s
  else if !(exts.isEmpty || exts.contains f.ext) then s
  else
    let s1 :=
      match calculate_file_hash f with
      | some h =>
        match get_file_info f with
        | some fi => { s with file_hashes := addToBucket s.file_hashes h fi }
        | none => s
      | none => s
    { s1 with scanned_files := s1.scanned_files + 1 }

/-- The hashing phase of scan_directory over the flattened traversal order,
starting from the freshly reset state (lines 103-106). -/
def runScan (minSize : Nat) (exts : List String) (files : List SrcFile) : ScanState :=
  files.foldl (scanStep minSize exts) ⟨[], 0⟩

/-! ## Duplicate grouping (scan_directory lines 174-187) -/

/-- Stable insertion of a FileInfo into a list sorted by mtime descending:
the element goes before the first member whose mtime does not exceed it,
matching Python's stable `list.sort(key=getmtime, reverse=True)`. -/
def insertByMtimeDesc (x : FileInfo) : List FileInfo → List FileInfo
  | [] => [x]
  | y :: ys => if y.mtime ≤ x.mtime then x :: y :: ys else y :: insertByMtimeDesc x ys

/-- Sort a bucket by modification time, newest first (line 179). -/
def sortByMtimeDesc : List FileInfo → List FileInfo
  | [] => []
  | x :: xs => insertByMtimeDesc x (sortByMtimeDesc xs)

/-- One iteration of the find-duplicates loop (lines 176-184): a bucket with
more than one member is sorted newest-first, appended to the duplicates
dict, and the sizes of all its members after the first are added to the
running total_duplicate_size. -/
def findDupStep (acc : List (Nat × List FileInfo) × Nat) (b : Nat × List FileInfo) :
    List (Nat × List FileInfo) × Nat :=
  if 1 < b.2.length then
    let sorted := sortByMtimeDesc b.2
    (acc.1 ++ [(b.1, sorted)], acc.2 + ((sorted.drop 1).map FileInfo.size).sum)
  else acc

/-- The find-duplicates pass over the accumulated buckets, producing the
digest → group mapping and the accumulated reclaimable size. -/
def find_duplicates (buckets : List (Nat × List FileInfo)) :
    List (Nat × List FileInfo) × Nat :=
  buckets.foldl findDupStep ([], 0)

/-- Result of scan_directory together with the session fields it sets. -/
structure ScanResult where
  duplicates : List (Nat × List FileInfo)
  total_duplicate_size : Nat
  scanned_files : Nat
  total_files : Nat
deriving DecidableEq

/-- scan_directory (lines 100-187): reset the session, pre-count the
candidates, return the empty mapping when the pre-count is zero (lines
116-118), otherwise walk, hash, bucket and finally group the buckets. -/
def scan_directory (minSize : Nat) (exts : List String) (files : List SrcFile) :
    ScanResult :=
  let total := count_files_in_directory minSize exts files
  if total = 0 then ⟨[], 0, 0, total⟩
  else
    let s := runScan minSize exts files
    let d := find_duplicates s.file_hashes
    ⟨d.1, d.2, s.scanned_files, total⟩

/-! ## Temp cleaner (system_utils.py, FileCleanup) -/

/-- Outcome of one os.remove attempt inside _delete_file_with_retry. -/
inductive DelOutcome
  | success
  | permInUse
  | permOther
  | osErr
  | otherExc
deriving DecidableEq

/-- Model of one file met by _clean_directory_smart: path, whether
os.path.exists is true, whether os.stat/getsize succeed, modification time
and current time in seconds (rationals: datetime arithmetic has sub-second
resolution), size, the result of the _is_system_critical_file denylist test,
and the outcome of os.remove on each retry attempt. -/
structure TempFile where
  path : String
  present : Bool
  statOk : Bool
  mtime : ℚ
  size : Nat
  critical : Bool
  attempt : Nat → DelOutcome

/-- _is_file_old_enough (lines 324-331): true when now - mtime strictly
exceeds min_file_age_hours hours; false when os.stat raises. -/
def _is_file_old_enough (now minAgeHours : ℚ) (f : TempFile) : Bool :=
  f.statOk && decide (minAgeHours * 3600 < now - f.mtime)

/-- Result of _delete_file_with_retry: return True, return False, or a
propagating PermissionError whose message does/does not match the in-use
pattern. -/
inductive DelResult
  | ok
  | failedFalse
  | raised (inUse : Bool)
deriving DecidableEq

/-- The retry loop of _delete_file_with_retry (lines 365-394) over the
remaining attempt numbers: success returns True; an in-use PermissionError
sleeps and retries unless this was the last attempt, in which case it is
re-raised; any other PermissionError is re-raised at once; OSError /
FileNotFoundError and unexpected exceptions return False. -/
def delRetryAux (attempt : Nat → DelOutcome) : List Nat → DelResult
  | [] => .failedFalse
  | a :: rest =>
    match attempt a with
    | .success => .ok
    | .permInUse => if rest.isEmpty then .raised true else delRetryAux attempt rest
    | .permOther => .raised false
    | .osErr => .failedFalse
    | .otherExc => .failedFalse

/-- _delete_file_with_retry with the default max_retries = 3: attempts 0, 1
and 2. -/
def _delete_file_with_retry (f : TempFile) : DelResult :=
  delRetryAux f.attempt [0, 1, 2]

/-- Counters and error list accumulated by FileCleanup during
clean_temp_files. -/
structure CleanState where
  cleaned_size : Nat
  cleaned_files : Nat
  skipped_files : Nat
  permission_errors : Nat
  in_use_errors : Nat
  errors : List String
deriving DecidableEq

/-- Per-file body of _clean_directory_smart (lines 278-316), returning the
updated counters and whether a deletion was attempted (i.e. whether control
reached the _delete_file_with_retry call). Order of the checks follows the
source: existence, age, denylist, getsize, then the retried delete; a
PermissionError escaping the retry helper increments permission_errors,
additionally increments in_use_errors when its message matches the in-use
pattern, and is appended to the error list while it holds fewer than 5
entries; OSError / FileNotFoundError is ignored. -/
def cleanFileStep (now minAgeHours : ℚ) (s : CleanState) (f : TempFile) :
    CleanState × Bool :=
  if !f.present then (s, false)
  else if !(_is_file_old_enough now minAgeHours f) then
    ({ s with skipped_files := s.skipped_files + 1 }, false)
  else if f.critical then
    ({ s with skipped_files := s.skipped_files + 1 }, false)
  else if !f.statOk then (s, false)
  else
    match _delete_file_with_retry f with
    | .ok =>
      ({ s with cleaned_size := s.cleaned_size + f.size,
                cleaned_files := s.cleaned_files + 1 }, true)
    | .failedFalse =>
      ({ s with skipped_files := s.skipped_files + 1 }, true)
    | .raised inUse =>
      ({ s with permission_errors := s.permission_errors + 1,
                in_use_errors := s.in_use_errors + (if inUse then 1 else 0),
                errors :=
                  if s.errors.length < 5 then
                    s.errors ++ ["Cannot delete " ++ f.path]
                  else s.errors }, true)

/-- The file loop of _clean_directory_smart over one directory walk,
threading the counters; directory pruning does not touch the counters. -/
def clean_directory_smart (now minAgeHours : ℚ) (files : List TempFile)
    (s : CleanState) : CleanState :=
  files.foldl (fun s f => (cleanFileStep now minAgeHours s f).1) s

/-- The counters clean_temp_files starts from (lines 233-237). -/
def initialCleanState : CleanState := ⟨0, 0, 0, 0, 0, []⟩

/-! ## Structured-store mutator (browser_cleaner.py, _clear_sqlite_database) -/

/-- A filesystem fragment: paths mapped to byte contents. -/
abbrev FS := List (String × List Nat)

def fsLookup : FS → String → Option (List Nat)
  | [], _ => none
  | (q, c) :: rest, p => if q = p then some c else fsLookup rest p

/-- Overwrite the first entry for the path, or create the file. -/
def fsSet : FS → String → List Nat → FS
  | [], p, c => [(p, c)]
  | (q, d) :: rest, p, c =>
    if q = p then (q, c) :: rest else (q, d) :: fsSet rest p c

/-- Remove every entry for the path. -/
def fsErase : FS → String → FS
  | [], _ => []
  | (q, c) :: rest, p => if q = p then fsErase rest p else (q, c) :: fsErase rest p

/-- The steps of the mutation protocol that can fail after the backup copy:
sqlite3.connect, a category DELETE statement, and the commit. -/
inductive MutStep
  | openDb
  | delStmt
  | commit
deriving DecidableEq

/-- Environment for one _clear_sqlite_database call: where (if anywhere) the
SQLite layer fails, the partially mutated bytes the store holds at the
moment the failure is raised, and the bytes after a fully successful
category deletion (the cookies/history/downloads table choice is abstracted
into this content transition). -/
structure MutEnv where
  failAt : Option MutStep
  contentAtFail : List Nat
  cleanedContent : List Nat
deriving DecidableEq

/-- Result of _clear_sqlite_database: the filesystem afterwards and whether
an exception propagated to the caller. -/
structure MutResult where
  fs : FS
  raised : Bool
deriving DecidableEq

/-- _clear_sqlite_database (lines 161-190): copy the store to path+".backup"
(shutil.copy2), open the database, run the category's delete statements,
commit, close, then os.remove the backup. On any exception raised after the
backup exists, shutil.move puts the backup back over the store — restoring
the original bytes and removing the backup file — and the exception is
re-raised. When the store path itself is missing, copy2 raises, the handler
finds no backup, and the error propagates with the filesystem unchanged. -/
def _clear_sqlite_database (fs : FS) (dbPath : String) (env : MutEnv) : MutResult :=
  match fsLookup fs dbPath with
  | none => ⟨fs, true⟩
  | some orig =>
    let backupPath := dbPath ++ ".backup"
    let fs1 := fsSet fs backupPath orig
    match env.failAt with
    | some _ =>
      let fs2 := fsSet fs1 dbPath env.contentAtFail
      let fs3 := fsErase (fsSet fs2 dbPath orig) backupPath
      ⟨fs3, true⟩
    | none =>
      let fs2 := fsSet fs1 dbPath env.cleanedContent
      ⟨fsErase fs2 backupPath, false⟩

/-! ## Duplicate deletion and summary (duplicate_finder.py lines 189-232) -/

/-- Session state of a DuplicateFinder instance. -/
structure DuplicateFinder where
  file_hashes : List (Nat × List FileInfo)
  scanned_files : Nat
  total_files : Nat
  duplicates_found : List (Nat × List FileInfo)
  total_duplicate_size : Nat
deriving DecidableEq

/-- Filesystem model for deletion: the present files with their sizes, and
the paths for which os.remove raises OSError/PermissionError. -/
structure DelFS where
  files : List (String × Nat)
  locked : List String
deriving DecidableEq

/-- Result dictionary of delete_selected_duplicates; the freed size is kept
in bytes (the code reports it divided by 1024²). -/
structure DeleteResult where
  deleted_files : Nat
  deleted_size : Nat
  errors : List String
deriving DecidableEq

/-- Summary dictionary of get_duplicate_summary; savings kept in bytes, and
the scanned_files key is absent (none) in the no-duplicates branch of the
source. -/
structure Summary where
  total_duplicates : Nat
  duplicate_groups : Nat
  savings_bytes : Nat
  scanned_files : Option Nat
deriving DecidableEq

/-- get_duplicate_summary (lines 189-210). -/
def get_duplicate_summary (df : DuplicateFinder) : Summary :=
  if df.duplicates_found.isEmpty then ⟨0, 0, 0, none⟩
  else
    ⟨(df.duplicates_found.map fun g => g.2.length - 1).sum,
     df.duplicates_found.length, df.total_duplicate_size, some df.scanned_files⟩

/-- Per-path body of the loop in delete_selected_duplicates (lines 218-226):
when the path exists, its size is captured and os.remove is issued; a
locked path raises and the error is appended; a missing path is silently
skipped. The DuplicateFinder session state is threaded through untouched,
as the method body never assigns to self. -/
def deleteOnePath (st : DuplicateFinder × DelFS × DeleteResult) (p : String) :
    DuplicateFinder × DelFS × DeleteResult :=
  match st.2.1.files.lookup p with
  | none => st
  | some sz =>
    if st.2.1.locked.contains p then
      (st.1, st.2.1,
        { st.2.2 with errors := st.2.2.errors ++ ["Cannot delete " ++ p] })
    else
      (st.1,
        { st.2.1 with files := st.2.1.files.filter fun e => !(e.1 == p) },
        { st.2.2 with deleted_files := st.2.2.deleted_files + 1,
                      deleted_size := st.2.2.deleted_size + sz })

/-- delete_selected_duplicates (lines 212-232). -/
def delete_selected_duplicates (df : DuplicateFinder) (fs : DelFS)
    (paths : List String) : DuplicateFinder × DelFS × DeleteResult :=
  paths.foldl deleteOnePath (df, fs, ⟨0, 0, []⟩)

/-! ## Helper lemmas: filesystem fragment -/

theorem fsLookup_fsSet_same (fs : FS) (p : String) (c : List Nat) :
    fsLookup (fsSet fs p c) p = some c := by
  induction fs with
  | nil => simp [fsSet, fsLookup]
  | cons e rest ih =>
    by_cases h : e.1 = p
    · simp [fsSet, fsLookup, h]
    · simp [fsSet, fsLookup, h, ih]

theorem fsLookup_fsSet_ne (fs : FS) (q p : String) (c : List Nat) (h : q ≠ p) :
    fsLookup (fsSet fs q c) p = fsLookup fs p := by
  induction fs with
  | nil => simp [fsSet, fsLookup, h]
  | cons e rest ih =>
    by_cases he : e.1 = q
    · simp [fsSet, fsLookup, he, h]
    · simp [fsSet, fsLookup, he, ih]

theorem fsLookup_fsErase_same (fs : FS) (p : String) :
    fsLookup (fsErase fs p) p = none := by
  induction fs with
  | nil => simp [fsErase, fsLookup]
  | cons e rest ih =>
    obtain ⟨q, c⟩ := e
    by_cases h : q = p
    · simpa [fsErase, h] using ih
    · simpa [fsErase, fsLookup, h] using ih

theorem fsLookup_fsErase_ne (fs : FS) (q p : String) (h : q ≠ p) :
    fsLookup (fsErase fs q) p = fsLookup fs p := by
  induction fs with
  | nil => simp [fsErase, fsLookup]
  | cons e rest ih =>
    obtain ⟨r, c⟩ := e
    by_cases hr : r = q
    · subst hr
      simpa [fsErase, fsLookup, h] using ih
    · have hpq : p ≠ q := fun e => h e.symm
      by_cases hp : r = p <;> simp [fsErase, fsLookup, hr, hp, hpq, ih]

theorem backup_path_ne (p : String) : p ++ ".backup" ≠ p := by
  intro h
  have hlen := congrArg String.length h
  have h7 : (".backup" : String).length = 7 := rfl
  rw [String.length_append, h7] at hlen
  omega

/-- C1: for every structured-store mutation in which a step after the backup
copy fails (the open, a delete statement, or the commit), the store file's
bytes after the call equal its bytes before the call, the failure propagates
to the caller, and no backup file remains on disk. -/
theorem clear_sqlite_fail_restores (fs : FS) (dbPath : String) (env : MutEnv)
    (orig : List Nat) (hdb : fsLookup fs dbPath = some orig)
    (step : MutStep) (hfail : env.failAt = some step) :
    (_clear_sqlite_database fs dbPath env).raised = true ∧
    fsLookup (_clear_sqlite_database fs dbPath env).fs dbPath = some orig ∧
    fsLookup (_clear_sqlite_database fs dbPath env).fs (dbPath ++ ".backup") = none := by
  have h1 : _clear_sqlite_database fs dbPath env =
      ⟨fsErase (fsSet (fsSet (fsSet fs (dbPath ++ ".backup") orig) dbPath
          env.contentAtFail) dbPath orig) (dbPath ++ ".backup"), true⟩ := by
    unfold _clear_sqlite_database
    rw [hdb, hfail]
  rw [h1]
  refine ⟨rfl, ?_, ?_⟩
  · rw [fsLookup_fsErase_ne _ _ _ (backup_path_ne dbPath), fsLookup_fsSet_same]
  · exact fsLookup_fsErase_same _ _

theorem clear_sqlite_fail_restores_witness :
    fsLookup [("Cookies", [1, 2, 3])] "Cookies" = some [1, 2, 3] ∧
    (_clear_sqlite_database [("Cookies", [1, 2, 3])] "Cookies"
        ⟨some MutStep.delStmt, [9], []⟩).raised = true ∧
    fsLookup (_clear_sqlite_database [("Cookies", [1, 2, 3])] "Cookies"
        ⟨some MutStep.delStmt, [9], []⟩).fs "Cookies" = some [1, 2, 3] ∧
    fsLookup (_clear_sqlite_database [("Cookies", [1, 2, 3])] "Cookies"
        ⟨some MutStep.delStmt, [9], []⟩).fs ("Cookies" ++ ".backup") = none :=
  ⟨by simp [fsLookup],
   clear_sqlite_fail_restores [("Cookies", [1, 2, 3])] "Cookies"
     ⟨some MutStep.delStmt, [9], []⟩ [1, 2, 3] (by simp [fsLookup]) MutStep.delStmt rfl⟩

/-! ## Helper lemmas: chunked read -/

theorem readChunksAux_complete (limit : Nat) :
    ∀ fuel remaining bytesRead : Nat, remaining ≤ fuel →
      bytesRead + remaining ≤ limit →
      readChunksAux limit fuel remaining bytesRead = true := by
  intro fuel
  induction fuel with
  | zero =>
    intro remaining bytesRead hfu hle
    have h0 : remaining = 0 := by omega
    subst h0
    rfl
  | succ n ih =>
    intro remaining bytesRead hfu hle
    by_cases h0 : remaining = 0
    · simp only [readChunksAux, if_pos h0]
    · simp only [readChunksAux, if_neg h0]
      rw [if_neg (by omega)]
      exact ih _ _ (by omega) (by omega)

theorem readChunks_complete : ∀ remaining bytesRead limit : Nat,
    bytesRead + remaining ≤ limit → readChunks remaining bytesRead limit = true := by
  intro remaining bytesRead limit h
  exact readChunksAux_complete limit remaining remaining bytesRead (le_refl _) h

/-- C9: a file whose size is exactly the 100 MiB cutoff is hashed — both the
metadata pre-check and the accumulating re-check compare with strict
greater-than, making the limit inclusive. -/
theorem hash_at_exact_cutoff (f : SrcFile) (hstat : f.statOk = true)
    (hread : f.readable = true) (hsize : f.size = 100 * 1024 * 1024) :
    calculate_file_hash f = some f.digest := by
  have hc : readChunks (100 * 1024 * 1024) 0 maxFileSize = true :=
    readChunks_complete _ _ _ (by simp [maxFileSize])
  simp [calculate_file_hash, hstat, hread, hsize, maxFileSize] at hc ⊢
  exact hc

theorem hash_at_exact_cutoff_witness :
    calculate_file_hash
      ⟨"big.bin", "big.bin", ".bin", true, true, true, 100 * 1024 * 1024, 0, 42⟩ =
      some 42 :=
  hash_at_exact_cutoff
    ⟨"big.bin", "big.bin", ".bin", true, true, true, 100 * 1024 * 1024, 0, 42⟩
    rfl rfl rfl

/-! ## Deletion leaves the session state untouched -/

theorem foldl_deleteOnePath_fst (paths : List String)
    (st : DuplicateFinder × DelFS × DeleteResult) :
    (paths.foldl deleteOnePath st).1 = st.1 := by
  have hstep : ∀ (st : DuplicateFinder × DelFS × DeleteResult) (p : String),
      (deleteOnePath st p).1 = st.1 := by
    intro st p
    unfold deleteOnePath
    split
    · rfl
    · split <;> rfl
  induction paths generalizing st with
  | nil => rfl
  | cons p rest ih =>
    rw [List.foldl_cons, ih, hstep]

/-- C10: delete_selected_duplicates never writes the scan session fields:
file_hashes, duplicates_found, scanned_files, total_files and
total_duplicate_size are unchanged, so get_duplicate_summary afterwards
reports the pre-deletion figures. -/
theorem delete_preserves_session (df : DuplicateFinder) (fs : DelFS)
    (paths : List String) :
    (delete_selected_duplicates df fs paths).1.file_hashes = df.file_hashes ∧
    (delete_selected_duplicates df fs paths).1.duplicates_found = df.duplicates_found ∧
    (delete_selected_duplicates df fs paths).1.scanned_files = df.scanned_files ∧
    (delete_selected_duplicates df fs paths).1.total_files = df.total_files ∧
    (delete_selected_duplicates df fs paths).1.total_duplicate_size = df.total_duplicate_size ∧
    get_duplicate_summary (delete_selected_duplicates df fs paths).1 =
      get_duplicate_summary df := by
  have h : (delete_selected_duplicates df fs paths).1 = df :=
    foldl_deleteOnePath_fst paths (df, fs, ⟨0, 0, []⟩)
  rw [h]
  exact ⟨rfl, rfl, rfl, rfl, rfl, rfl⟩

/-! ## Temp-cleaner theorems -/

/-- C7: clean_temp_files never deletes a file whose modification age is at
most the configured minimum. The per-file body skips such a file before the
denylist test and before any delete call (whatever the critical flag says),
and conversely a delete is attempted only on files that passed the strict
age comparison. -/
theorem clean_never_deletes_young (now minAgeHours : ℚ) (s : CleanState)
    (f : TempFile) :
    (now - f.mtime ≤ minAgeHours * 3600 →
      (cleanFileStep now minAgeHours s f).2 = false ∧
      (cleanFileStep now minAgeHours s f).1.cleaned_files = s.cleaned_files ∧
      (cleanFileStep now minAgeHours s f).1.cleaned_size = s.cleaned_size) ∧
    ((cleanFileStep now minAgeHours s f).2 = true →
      minAgeHours * 3600 < now - f.mtime) := by
  have key : now - f.mtime ≤ minAgeHours * 3600 →
      (cleanFileStep now minAgeHours s f).2 = false ∧
      (cleanFileStep now minAgeHours s f).1.cleaned_files = s.cleaned_files ∧
      (cleanFileStep now minAgeHours s f).1.cleaned_size = s.cleaned_size := by
    intro hage
    have hdec : decide (minAgeHours * 3600 < now - f.mtime) = false :=
      decide_eq_false (not_lt.mpr hage)
    have hold : _is_file_old_enough now minAgeHours f = false := by
      unfold _is_file_old_enough
      rw [hdec, Bool.and_false]
    by_cases hp : f.present <;> simp [cleanFileStep, hp, hold]
  refine ⟨key, ?_⟩
  intro hdel
  by_contra hlt
  rw [not_lt] at hlt
  have h0 := (key hlt).1
  rw [h0] at hdel
  exact Bool.false_ne_true hdel

/-- A file one hour old minus 100 seconds: younger than the default minimum
age, existing, with a successful delete available (which must not be
reached). -/
def youngTempFile : TempFile :=
  ⟨"young.tmp", true, true, 100, 4, true, fun _ => DelOutcome.success⟩

theorem clean_never_deletes_young_witness :
    ((3600 : ℚ) - youngTempFile.mtime ≤ 1 * 3600) ∧
    (cleanFileStep 3600 1 initialCleanState youngTempFile).2 = false :=
  ⟨by norm_num [youngTempFile],
   ((clean_never_deletes_young 3600 1 initialCleanState youngTempFile).1
     (by norm_num [youngTempFile])).1⟩

/-- A file that exists, is old enough, passes the denylist, and whose
os.remove raises an in-use PermissionError on every attempt. -/
def inUseTempFile : TempFile :=
  ⟨"busy.tmp", true, true, 0, 5, false, fun _ => DelOutcome.permInUse⟩

/-- C2 counterexample: a file whose deletion fails with an in-use lock error
on all 3 attempts is NOT counted as skipped — the re-raised PermissionError
increments permission_errors and in_use_errors and lands in the error list,
while skipped_files stays 0. -/
theorem clean_in_use_counterexample :
    (cleanFileStep 7200 1 initialCleanState inUseTempFile).1.skipped_files = 0 ∧
    (cleanFileStep 7200 1 initialCleanState inUseTempFile).1.permission_errors = 1 ∧
    (cleanFileStep 7200 1 initialCleanState inUseTempFile).1.in_use_errors = 1 ∧
    (cleanFileStep 7200 1 initialCleanState inUseTempFile).1.errors =
      ["Cannot delete " ++ "busy.tmp"] := by
  have hold : _is_file_old_enough 7200 1 inUseTempFile = true := by
    norm_num [_is_file_old_enough, inUseTempFile]
  have hr : _delete_file_with_retry inUseTempFile = DelResult.raised true := rfl
  have hp : inUseTempFile.present = true := rfl
  have hc : inUseTempFile.critical = false := rfl
  have hs : inUseTempFile.statOk = true := rfl
  have hpa : inUseTempFile.path = "busy.tmp" := rfl
  simp [cleanFileStep, hp, hc, hs, hold, hr, hpa, initialCleanState]

/-- C2 amended: when every retry attempt on a file fails with an in-use
PermissionError, _delete_file_with_retry re-raises on the last attempt and
_clean_directory_smart counts the file as a permission error and an in-use
error and appends it to the error list while fewer than 5 errors are logged;
skipped_files is unchanged (skipped is reserved for files failing the age or
denylist filters and for deletions that return False, i.e. OSError /
FileNotFoundError or unexpected non-permission exceptions). -/
theorem clean_in_use_exhausted (now minAgeHours : ℚ) (s : CleanState)
    (f : TempFile) (hpres : f.present = true)
    (hold : _is_file_old_enough now minAgeHours f = true)
    (hcrit : f.critical = false) (hstat : f.statOk = true)
    (hbusy : ∀ a, a < 3 → f.attempt a = DelOutcome.permInUse) :
    (cleanFileStep now minAgeHours s f).1 =
      { s with permission_errors := s.permission_errors + 1,
               in_use_errors := s.in_use_errors + 1,
               errors := if s.errors.length < 5
                 then s.errors ++ ["Cannot delete " ++ f.path] else s.errors } ∧
    (cleanFileStep now minAgeHours s f).1.skipped_files = s.skipped_files := by
  have hr : _delete_file_with_retry f = DelResult.raised true := by
    simp only [_delete_file_with_retry, delRetryAux, hbusy 0 (by omega),
      hbusy 1 (by omega), hbusy 2 (by omega), List.isEmpty]
    rfl
  have h1 : (cleanFileStep now minAgeHours s f).1 =
      { s with permission_errors := s.permission_errors + 1,
               in_use_errors := s.in_use_errors + 1,
               errors := if s.errors.length < 5
                 then s.errors ++ ["Cannot delete " ++ f.path] else s.errors } := by
    simp [cleanFileStep, hpres, hold, hcrit, hstat, hr]
  exact ⟨h1, by rw [h1]⟩

theorem clean_in_use_exhausted_witness :
    inUseTempFile.present = true ∧
    _is_file_old_enough 7200 1 inUseTempFile = true ∧
    inUseTempFile.critical = false ∧
    (cleanFileStep 7200 1 initialCleanState inUseTempFile).1.permission_errors = 1 := by
  have hold : _is_file_old_enough 7200 1 inUseTempFile = true := by
    norm_num [_is_file_old_enough, inUseTempFile]
  refine ⟨rfl, hold, rfl, ?_⟩
  rw [(clean_in_use_exhausted 7200 1 initialCleanState inUseTempFile rfl hold rfl rfl
    (fun a _ => rfl)).1]
  simp [initialCleanState]

/-! ## Helper lemmas: sorting, bucketing, and the scan fold -/

theorem insertByMtimeDesc_perm (x : FileInfo) (l : List FileInfo) :
    List.Perm (insertByMtimeDesc x l) (x :: l) := by
  induction l with
  | nil => exact List.Perm.refl _
  | cons y ys ih =>
    rw [insertByMtimeDesc]
    split
    · exact List.Perm.refl _
    · exact (ih.cons y).trans (List.Perm.swap x y ys)

theorem sortByMtimeDesc_perm (l : List FileInfo) :
    List.Perm (sortByMtimeDesc l) l := by
  induction l with
  | nil => exact List.Perm.refl _
  | cons x xs ih => exact (insertByMtimeDesc_perm x _).trans (ih.cons x)

theorem pairwise_insertByMtimeDesc (x : FileInfo) (l : List FileInfo)
    (hl : l.Pairwise fun a b => b.mtime ≤ a.mtime) :
    (insertByMtimeDesc x l).Pairwise fun a b => b.mtime ≤ a.mtime := by
  induction l with
  | nil => simp [insertByMtimeDesc]
  | cons y ys ih =>
    rw [List.pairwise_cons] at hl
    obtain ⟨hy, hys⟩ := hl
    rw [insertByMtimeDesc]
    split
    next hxy =>
      rw [List.pairwise_cons]
      refine ⟨?_, List.pairwise_cons.mpr ⟨hy, hys⟩⟩
      intro z hz
      rcases List.mem_cons.mp hz with rfl | hz
      · exact hxy
      · exact le_trans (hy z hz) hxy
    next hxy =>
      rw [List.pairwise_cons]
      refine ⟨?_, ih hys⟩
      intro z hz
      have hz' := (insertByMtimeDesc_perm x ys).mem_iff.mp hz
      rcases List.mem_cons.mp hz' with rfl | hz'
      · exact le_of_lt (Nat.lt_of_not_le hxy)
      · exact hy z hz'

theorem sortByMtimeDesc_pairwise (l : List FileInfo) :
    (sortByMtimeDesc l).Pairwise fun a b => b.mtime ≤ a.mtime := by
  induction l with
  | nil => simp [sortByMtimeDesc]
  | cons x xs ih => exact pairwise_insertByMtimeDesc x _ ih

theorem mem_addToBucket (h : Nat) (fi : FileInfo) :
    ∀ (bs : List (Nat × List FileInfo)) (b : Nat × List FileInfo),
      b ∈ addToBucket bs h fi → ∀ x ∈ b.2,
      (∃ b' ∈ bs, x ∈ b'.2) ∨ x = fi := by
  intro bs
  induction bs with
  | nil =>
    intro b hb x hx
    rw [addToBucket] at hb
    rcases List.mem_singleton.mp hb with rfl
    exact Or.inr (List.mem_singleton.mp hx)
  | cons e rest ih =>
    obtain ⟨k, fs⟩ := e
    intro b hb x hx
    rw [addToBucket] at hb
    by_cases hk : k = h
    · rw [if_pos hk] at hb
      rcases List.mem_cons.mp hb with rfl | hb
      · rcases List.mem_append.mp hx with h1 | h1
        · exact Or.inl ⟨(k, fs), List.mem_cons_self _ _, h1⟩
        · exact Or.inr (List.mem_singleton.mp h1)
      · exact Or.inl ⟨b, List.mem_cons_of_mem _ hb, hx⟩
    · rw [if_neg hk] at hb
      rcases List.mem_cons.mp hb with rfl | hb
      · exact Or.inl ⟨(k, fs), List.mem_cons_self _ _, hx⟩
      · rcases ih b hb x hx with ⟨b', hb', hx'⟩ | hfi
        · exact Or.inl ⟨b', List.mem_cons_of_mem _ hb', hx'⟩
        · exact Or.inr hfi

theorem addToBucket_keys (bs : List (Nat × List FileInfo)) (h : Nat) (fi : FileInfo) :
    ((addToBucket bs h fi).map Prod.fst = bs.map Prod.fst ∧ h ∈ bs.map Prod.fst) ∨
    ((addToBucket bs h fi).map Prod.fst = bs.map Prod.fst ++ [h] ∧
      h ∉ bs.map Prod.fst) := by
  induction bs with
  | nil => right; simp [addToBucket]
  | cons e rest ih =>
    obtain ⟨k, fs⟩ := e
    by_cases hk : k = h
    · left
      constructor
      · simp [addToBucket, hk]
      · rw [hk]; exact List.mem_cons_self _ _
    · rcases ih with ⟨h1, h2⟩ | ⟨h1, h2⟩
      · left
        constructor
        · simp [addToBucket, hk, h1]
        · exact List.mem_cons_of_mem _ h2
      · right
        constructor
        · simp [addToBucket, hk, h1]
        · intro hc
          rcases List.mem_cons.mp hc with hc | hc
          · exact hk hc.symm
          · exact h2 hc

theorem addToBucket_keys_nodup (bs : List (Nat × List FileInfo)) (h : Nat)
    (fi : FileInfo) (hnd : (bs.map Prod.fst).Nodup) :
    ((addToBucket bs h fi).map Prod.fst).Nodup := by
  rcases addToBucket_keys bs h fi with ⟨heq, _⟩ | ⟨heq, hnm⟩
  · rw [heq]; exact hnd
  · rw [heq]; simp [List.nodup_append, hnd, hnm]

theorem bucket_unique (bs : List (Nat × List FileInfo))
    (hnd : (bs.map Prod.fst).Nodup) (b b' : Nat × List FileInfo)
    (hb : b ∈ bs) (hb' : b' ∈ bs) (hk : b.1 = b'.1) : b = b' :=
  List.inj_on_of_nodup_map hnd hb hb' hk

theorem get_file_info_size (f : SrcFile) (fi : FileInfo)
    (h : get_file_info f = some fi) : fi.size = f.size := by
  unfold get_file_info at h
  split at h
  · injection h with h'
    subst h'
    rfl
  · exact Option.noConfusion h

theorem hash_error_or_oversized_none (f : SrcFile)
    (h : f.statOk = false ∨ f.readable = false ∨ maxFileSize < f.size) :
    calculate_file_hash f = none := by
  unfold calculate_file_hash
  rcases h with h | h | h
  · simp [h]
  · simp [h]
  · by_cases h1 : (!f.statOk || !f.readable) = true
    · rw [if_pos h1]
    · rw [if_neg h1, if_pos h]

theorem hash_some_size_le (f : SrcFile) (h : Nat)
    (hch : calculate_file_hash f = some h) : f.size ≤ maxFileSize := by
  by_contra hlt
  rw [not_le] at hlt
  rw [hash_error_or_oversized_none f (Or.inr (Or.inr hlt))] at hch
  exact Option.noConfusion hch

theorem scanStep_file_hashes (minSize : Nat) (exts : List String) (s : ScanState)
    (f : SrcFile) :
    (scanStep minSize exts s f).file_hashes = s.file_hashes ∨
    ∃ h fi, calculate_file_hash f = some h ∧ get_file_info f = some fi ∧
      (scanStep minSize exts s f).file_hashes = addToBucket s.file_hashes h fi := by
  unfold scanStep
  by_cases h1 : maxScanFiles ≤ s.scanned_files
  · rw [if_pos h1]; exact Or.inl rfl
  rw [if_neg h1]
  by_cases h2 : startsWithDot f.name
  · rw [if_pos h2]; exact Or.inl rfl
  rw [if_neg h2]
  by_cases h3 : f.statOk
  case neg =>
    rw [if_pos (show (!f.statOk) = true by simp [Bool.eq_false_iff.mpr h3])]
    exact Or.inl rfl
  rw [if_neg (show ¬(!f.statOk) = true by simp [h3])]
  by_cases h4 : f.size < minSize
  · rw [if_pos h4]; exact Or.inl rfl
  rw [if_neg h4]
  by_cases h5 : (exts.isEmpty || exts.contains f.ext) = true
  case neg =>
    have h5f := Bool.eq_false_iff.mpr h5
    rw [if_pos (show (!(exts.isEmpty || exts.contains f.ext)) = true by rw [h5f]; rfl)]
    exact Or.inl rfl
  rw [if_neg (show ¬(!(exts.isEmpty || exts.contains f.ext)) = true by rw [h5]; simp)]
  cases hch : calculate_file_hash f with
  | none => exact Or.inl rfl
  | some hsh =>
    cases hgi : get_file_info f with
    | none => exact Or.inl rfl
    | some fi => exact Or.inr ⟨hsh, fi, rfl, rfl, rfl⟩

theorem scanFold_bucket_size (minSize : Nat) (exts : List String) :
    ∀ (files : List SrcFile) (s : ScanState),
      (∀ b ∈ s.file_hashes, ∀ fi ∈ b.2, fi.size ≤ maxFileSize) →
      ∀ b ∈ (files.foldl (scanStep minSize exts) s).file_hashes, ∀ fi ∈ b.2,
        fi.size ≤ maxFileSize := by
  intro files
  induction files with
  | nil => intro s hs; exact hs
  | cons f rest ih =>
    intro s hs
    rw [List.foldl_cons]
    apply ih
    intro b hb fi hfi
    rcases scanStep_file_hashes minSize exts s f with heq | ⟨hsh, fiNew, hch, hgi, heq⟩
    · rw [heq] at hb
      exact hs b hb fi hfi
    · rw [heq] at hb
      rcases mem_addToBucket hsh fiNew s.file_hashes b hb fi hfi with ⟨b', hb', hfi'⟩ | hfeq

      · exact hs b' hb' fi hfi'
      · rw [hfeq, get_file_info_size f fiNew hgi]
        exact hash_some_size_le f hsh hch

theorem scanFold_keys_nodup (minSize : Nat) (exts : List String) :
    ∀ (files : List SrcFile) (s : ScanState),
      (s.file_hashes.map Prod.fst).Nodup →
      (((files.foldl (scanStep minSize exts) s).file_hashes).map Prod.fst).Nodup := by
  intro files
  induction files with
  | nil => intro s hs; exact hs
  | cons f rest ih =>
    intro s hs
    rw [List.foldl_cons]
    apply ih
    rcases scanStep_file_hashes minSize exts s f with heq | ⟨hsh, fiNew, _, _, heq⟩
    · rw [heq]; exact hs
    · rw [heq]; exact addToBucket_keys_nodup _ _ _ hs

theorem mem_findDup_foldl :
    ∀ (bs : List (Nat × List FileInfo)) (acc : List (Nat × List FileInfo) × Nat)
      (hg : Nat × List FileInfo), hg ∈ (bs.foldl findDupStep acc).1 →
      hg ∈ acc.1 ∨ ∃ b ∈ bs, hg.1 = b.1 ∧ hg.2 = sortByMtimeDesc b.2 ∧
        1 < b.2.length := by
  intro bs
  induction bs with
  | nil => intro acc hg h; exact Or.inl h
  | cons b rest ih =>
    intro acc hg h
    rw [List.foldl_cons] at h
    rcases ih _ hg h with hacc | ⟨b', hb', hrest⟩
    · unfold findDupStep at hacc
      split at hacc
      next hlen =>
        rcases List.mem_append.mp hacc with h1 | h1
        · exact Or.inl h1
        · right
          refine ⟨b, List.mem_cons_self _ _, ?_⟩
          rcases List.mem_singleton.mp h1 with rfl
          exact ⟨rfl, rfl, hlen⟩
      next => exact Or.inl hacc
    · exact Or.inr ⟨b', List.mem_cons_of_mem _ hb', hrest⟩

theorem findDup_shift :
    ∀ (bs : List (Nat × List FileInfo)) (l : List (Nat × List FileInfo)) (n : Nat),
      bs.foldl findDupStep (l, n) =
        (l ++ (bs.foldl findDupStep ([], 0)).1,
         n + (bs.foldl findDupStep ([], 0)).2) := by
  intro bs
  induction bs with
  | nil => intro l n; simp
  | cons b rest ih =>
    intro l n
    rw [List.foldl_cons, List.foldl_cons]
    by_cases hlen : 1 < b.2.length
    · have hstep : ∀ (x : List (Nat × List FileInfo)) (m : Nat),
          findDupStep (x, m) b =
            (x ++ [(b.1, sortByMtimeDesc b.2)],
             m + (((sortByMtimeDesc b.2).drop 1).map FileInfo.size).sum) := by
        intro x m
        unfold findDupStep
        rw [if_pos hlen]
      rw [hstep, hstep,
          ih (l ++ [(b.1, sortByMtimeDesc b.2)])
            (n + (((sortByMtimeDesc b.2).drop 1).map FileInfo.size).sum),
          ih ([] ++ [(b.1, sortByMtimeDesc b.2)])
            (0 + (((sortByMtimeDesc b.2).drop 1).map FileInfo.size).sum)]
      simp [List.append_assoc, Nat.add_assoc]
    · have hstep : ∀ (x : List (Nat × List FileInfo)) (m : Nat),
          findDupStep (x, m) b = (x, m) := by
        intro x m
        unfold findDupStep
        rw [if_neg hlen]
      rw [hstep, hstep]
      exact ih l n

theorem findDup_sum (bs : List (Nat × List FileInfo)) :
    (find_duplicates bs).2 =
      ((find_duplicates bs).1.map
        fun g => ((g.2.drop 1).map FileInfo.size).sum).sum := by
  unfold find_duplicates
  induction bs with
  | nil => simp
  | cons b rest ih =>
    rw [List.foldl_cons]
    by_cases hlen : 1 < b.2.length
    · have hstep : findDupStep ([], 0) b =
          ([(b.1, sortByMtimeDesc b.2)],
           0 + (((sortByMtimeDesc b.2).drop 1).map FileInfo.size).sum) := by
        unfold findDupStep
        rw [if_pos hlen]
        rfl
      rw [hstep, findDup_shift rest _ _, ih]
      simp [List.append_assoc]
    · have hstep : findDupStep ([], 0) b = ([], 0) := by
        unfold findDupStep
        rw [if_neg hlen]
      rw [hstep]
      exact ih

theorem countFold_eq_min (minSize : Nat) (exts : List String) :
    ∀ (files : List SrcFile) (c : Nat), c ≤ maxScanFiles →
      files.foldl
        (fun c f =>
          if maxScanFiles ≤ c then c
          else if eligible minSize exts f then c + 1 else c) c =
      min (c + files.countP (eligible minSize exts)) maxScanFiles := by
  intro files
  induction files with
  | nil =>
    intro c hc
    simp
    omega
  | cons f rest ih =>
    intro c hc
    rw [List.foldl_cons, List.countP_cons]
    by_cases hcap : maxScanFiles ≤ c
    · rw [if_pos hcap, ih c hc]
      by_cases he : eligible minSize exts f <;> simp [he] <;> omega
    · rw [if_neg hcap]
      by_cases he : eligible minSize exts f
      · rw [if_pos he, ih (c + 1) (by omega)]
        simp [he]
        omega
      · rw [if_neg he, ih c hc]
        simp [he]

theorem count_files_eq_min (minSize : Nat) (exts : List String)
    (files : List SrcFile) :
    count_files_in_directory minSize exts files =
      min (files.countP (eligible minSize exts)) maxScanFiles := by
  have h := countFold_eq_min minSize exts files 0 (by simp [maxScanFiles])
  simpa [count_files_in_directory] using h

theorem scanStep_scanned (minSize : Nat) (exts : List String) (s : ScanState)
    (f : SrcFile) :
    (scanStep minSize exts s f).scanned_files =
      if maxScanFiles ≤ s.scanned_files then s.scanned_files
      else if eligible minSize exts f then s.scanned_files + 1
      else s.scanned_files := by
  unfold scanStep
  by_cases h1 : maxScanFiles ≤ s.scanned_files
  · rw [if_pos h1, if_pos h1]
  rw [if_neg h1, if_neg h1]
  by_cases h2 : startsWithDot f.name
  · rw [if_pos h2, if_neg (show ¬eligible minSize exts f = true by simp [eligible, h2])]
  rw [if_neg h2]
  by_cases h3 : f.statOk
  case neg =>
    rw [if_pos (show (!f.statOk) = true by simp [Bool.eq_false_iff.mpr h3]),
        if_neg (show ¬eligible minSize exts f = true by simp [eligible, h3])]
  rw [if_neg (show ¬(!f.statOk) = true by simp [h3])]
  by_cases h4 : f.size < minSize
  · rw [if_pos h4, if_neg (show ¬eligible minSize exts f = true by
      intro hel
      unfold eligible at hel
      rw [decide_eq_false (by omega : ¬minSize ≤ f.size)] at hel
      simp at hel)]
  rw [if_neg h4]
  by_cases h5 : (exts.isEmpty || exts.contains f.ext) = true
  case neg =>
    have h5f := Bool.eq_false_iff.mpr h5
    rw [if_pos (show (!(exts.isEmpty || exts.contains f.ext)) = true by rw [h5f]; rfl),
        if_neg (show ¬eligible minSize exts f = true by
          intro hel
          unfold eligible at hel
          rw [h5f, Bool.and_false] at hel
          exact Bool.noConfusion hel)]
  rw [if_neg (show ¬(!(exts.isEmpty || exts.contains f.ext)) = true by rw [h5]; simp),
      if_pos (show eligible minSize exts f = true by
        unfold eligible
        rw [Bool.eq_false_iff.mpr h2, h3, h5,
          decide_eq_true (show minSize ≤ f.size by omega)]
        rfl)]
  cases hch : calculate_file_hash f with
  | none => rfl
  | some hsh =>
    cases hgi : get_file_info f with
    | none => rfl
    | some fi => rfl

theorem scanFold_scanned (minSize : Nat) (exts : List String) :
    ∀ (files : List SrcFile) (s : ScanState), s.scanned_files ≤ maxScanFiles →
      (files.foldl (scanStep minSize exts) s).scanned_files =
        min (s.scanned_files + files.countP (eligible minSize exts)) maxScanFiles := by
  intro files
  induction files with
  | nil =>
    intro s hs
    simp
    omega
  | cons f rest ih =>
    intro s hs
    rw [List.foldl_cons, List.countP_cons]
    have hstep := scanStep_scanned minSize exts s f
    by_cases hcap : maxScanFiles ≤ s.scanned_files
    · have hceq : scanStep minSize exts s f = s := by
        unfold scanStep
        rw [if_pos hcap]
      rw [hceq, ih s hs]
      by_cases he : eligible minSize exts f <;> simp [he] <;> omega
    · by_cases he : eligible minSize exts f
      · have h2 : (scanStep minSize exts s f).scanned_files = s.scanned_files + 1 := by
          rw [hstep, if_neg hcap, if_pos he]
        rw [ih _ (by rw [h2]; omega), h2]
        simp [he]
        omega
      · have h2 : (scanStep minSize exts s f).scanned_files = s.scanned_files := by
          rw [hstep, if_neg hcap, if_neg he]
        rw [ih _ (by rw [h2]; omega), h2]
        simp [he]

theorem scan_directory_duplicates_cases (minSize : Nat) (exts : List String)
    (files : List SrcFile) :
    (scan_directory minSize exts files).duplicates = [] ∨
    (scan_directory minSize exts files).duplicates =
      (find_duplicates (runScan minSize exts files).file_hashes).1 := by
  unfold scan_directory
  by_cases h : count_files_in_directory minSize exts files = 0 <;> simp [h]

/-! ## Scenario inputs -/

/-- Scenario A of the spec: a.txt with content X (digest 100), one byte,
modified 2020-01-01. -/
def fileA : SrcFile := ⟨"a.txt", "a.txt", ".txt", true, true, true, 1, 1577836800, 100⟩

/-- Scenario A: b.txt with the same content X (digest 100), one byte,
modified 2023-01-01, newer than a.txt. -/
def fileB : SrcFile := ⟨"b.txt", "b.txt", ".txt", true, true, true, 1, 1672531200, 100⟩

/-- Scenario A: c.txt with different content Y (digest 200). -/
def fileC : SrcFile := ⟨"c.txt", "c.txt", ".txt", true, true, true, 2, 1700000000, 200⟩

/-! ## Scan theorems -/

/-- C4: for every scan the accumulated total_duplicate_size equals the sum
over all returned groups of the sizes of every member after the first; and
in scenario A (a.txt and b.txt identical, b.txt newer, c.txt different,
minSize 0) the scan returns exactly one group of two members with b.txt
first and reclaimable bytes equal to the size of a.txt. -/
theorem scan_total_duplicate_size (minSize : Nat) (exts : List String)
    (files : List SrcFile) :
    ((scan_directory minSize exts files).total_duplicate_size =
      ((scan_directory minSize exts files).duplicates.map
        fun g => ((g.2.drop 1).map FileInfo.size).sum).sum) ∧
    scan_directory 0 [] [fileA, fileB, fileC] =
      ⟨[(100, [⟨"b.txt", 1, 1672531200⟩, ⟨"a.txt", 1, 1577836800⟩])], 1, 3, 3⟩ := by
  constructor
  · unfold scan_directory
    by_cases h : count_files_in_directory minSize exts files = 0
    · simp [h]
    · simp only [h, if_false]
      exact findDup_sum _
  · decide

/-- C3: every group of every scan has at least two members, all members of a
group come from the bucket accumulated under the group's digest key, and a
digest whose bucket holds exactly one file never appears in the returned
mapping. -/
theorem scan_group_invariant (minSize : Nat) (exts : List String)
    (files : List SrcFile) :
    (∀ hg ∈ (scan_directory minSize exts files).duplicates,
      2 ≤ hg.2.length ∧
      ∃ fs, (hg.1, fs) ∈ (runScan minSize exts files).file_hashes ∧
        ∀ fi ∈ hg.2, fi ∈ fs) ∧
    (∀ b ∈ (runScan minSize exts files).file_hashes, b.2.length = 1 →
      ∀ g, (b.1, g) ∉ (scan_directory minSize exts files).duplicates) := by
  constructor
  · intro hg hmem
    rcases scan_directory_duplicates_cases minSize exts files with hd | hd
    · rw [hd] at hmem
      exact absurd hmem (List.not_mem_nil _)
    rw [hd] at hmem
    unfold find_duplicates at hmem
    rcases mem_findDup_foldl _ _ hg hmem with h0 | ⟨b, hb, hk, hsort, hlen⟩
    · exact absurd h0 (List.not_mem_nil _)
    constructor
    · rw [hsort, (sortByMtimeDesc_perm b.2).length_eq]
      omega
    · refine ⟨b.2, ?_, ?_⟩
      · rw [hk, Prod.mk.eta]
        exact hb
      · intro fi hfi
        rw [hsort] at hfi
        exact (sortByMtimeDesc_perm b.2).mem_iff.mp hfi
  · intro b hb hlen g hmem
    rcases scan_directory_duplicates_cases minSize exts files with hd | hd
    · rw [hd] at hmem
      exact absurd hmem (List.not_mem_nil _)
    rw [hd] at hmem
    unfold find_duplicates at hmem
    rcases mem_findDup_foldl _ _ _ hmem with h0 | ⟨b', hb', hk, _, hlen'⟩
    · exact absurd h0 (List.not_mem_nil _)
    have hnd := scanFold_keys_nodup minSize exts files ⟨[], 0⟩ (by simp)
    have hbe : b = b' := bucket_unique _ hnd b b' hb hb' hk
    rw [hbe] at hlen
    omega

theorem scan_group_invariant_witness :
    ((100, [(⟨"b.txt", 1, 1672531200⟩ : FileInfo), ⟨"a.txt", 1, 1577836800⟩]) ∈
      (scan_directory 0 [] [fileA, fileB, fileC]).duplicates) ∧
    2 ≤ [(⟨"b.txt", 1, 1672531200⟩ : FileInfo), ⟨"a.txt", 1, 1577836800⟩].length :=
  ⟨by decide,
   ((scan_group_invariant 0 [] [fileA, fileB, fileC]).1
     (100, [⟨"b.txt", 1, 1672531200⟩, ⟨"a.txt", 1, 1577836800⟩]) (by decide)).1⟩

/-- C5: members of every returned group are ordered by modification time
descending: for every valid index the mtime at i+1 is at most the mtime
at i. -/
theorem scan_group_mtime_sorted (minSize : Nat) (exts : List String)
    (files : List SrcFile) (hg : Nat × List FileInfo)
    (hmem : hg ∈ (scan_directory minSize exts files).duplicates)
    (i : Nat) (h1 : i < hg.2.length) (h2 : i + 1 < hg.2.length) :
    (hg.2.get ⟨i + 1, h2⟩).mtime ≤ (hg.2.get ⟨i, h1⟩).mtime := by
  rcases scan_directory_duplicates_cases minSize exts files with hd | hd
  · rw [hd] at hmem
    exact absurd hmem (List.not_mem_nil _)
  rw [hd] at hmem
  unfold find_duplicates at hmem
  rcases mem_findDup_foldl _ _ hg hmem with h0 | ⟨b, _, _, hsort, _⟩
  · exact absurd h0 (List.not_mem_nil _)
  have hpw : hg.2.Pairwise (fun a b => b.mtime ≤ a.mtime) := by
    rw [hsort]
    exact sortByMtimeDesc_pairwise b.2
  exact List.chain'_iff_get.mp hpw.chain' i (by omega)

theorem scan_group_mtime_sorted_witness :
    ((100, [(⟨"b.txt", 1, 1672531200⟩ : FileInfo), ⟨"a.txt", 1, 1577836800⟩]) ∈
      (scan_directory 0 [] [fileA, fileB, fileC]).duplicates) ∧
    ([(⟨"b.txt", 1, 1672531200⟩ : FileInfo), ⟨"a.txt", 1, 1577836800⟩].get
        ⟨1, by decide⟩).mtime ≤
      ([(⟨"b.txt", 1, 1672531200⟩ : FileInfo), ⟨"a.txt", 1, 1577836800⟩].get
        ⟨0, by decide⟩).mtime :=
  ⟨by decide,
   scan_group_mtime_sorted 0 [] [fileA, fileB, fileC]
     (100, [⟨"b.txt", 1, 1672531200⟩, ⟨"a.txt", 1, 1577836800⟩]) (by decide)
     0 (by decide) (by decide)⟩

/-- C6: when the tree holds more eligible files than the 10000-file ceiling,
the scan terminates with exactly 10000 scanned files and the pre-count
reports the ceiling value as the total. -/
theorem scan_ceiling (minSize : Nat) (exts : List String) (files : List SrcFile)
    (h : maxScanFiles < files.countP (eligible minSize exts)) :
    (scan_directory minSize exts files).scanned_files = maxScanFiles ∧
    (scan_directory minSize exts files).total_files = maxScanFiles := by
  have hcount : count_files_in_directory minSize exts files = maxScanFiles := by
    rw [count_files_eq_min]
    omega
  have hne : ¬count_files_in_directory minSize exts files = 0 := by
    rw [hcount]
    simp [maxScanFiles]
  have hscan : (runScan minSize exts files).scanned_files = maxScanFiles := by
    unfold runScan
    rw [scanFold_scanned minSize exts files ⟨[], 0⟩ (Nat.zero_le _)]
    have hz : (⟨[], 0⟩ : ScanState).scanned_files = 0 := rfl
    rw [hz]
    omega
  unfold scan_directory
  rw [if_neg hne]
  exact ⟨hscan, hcount⟩

/-- An ordinary eligible file (2048 bytes, above the default 1024-byte
minimum) used to overflow the scan ceiling. -/
def plainFile : SrcFile := ⟨"f.txt", "f.txt", ".txt", true, true, true, 2048, 0, 7⟩

theorem countP_eligible_replicate (n : Nat) :
    (List.replicate n plainFile).countP (eligible 1024 []) = n := by
  induction n with
  | zero => rfl
  | succ n ih =>
    rw [List.replicate_succ, List.countP_cons, ih]
    have he : eligible 1024 [] plainFile = true := by decide
    rw [he]
    simp

theorem scan_ceiling_witness :
    maxScanFiles < (List.replicate 10001 plainFile).countP (eligible 1024 []) ∧
    (scan_directory 1024 [] (List.replicate 10001 plainFile)).scanned_files =
      maxScanFiles :=
  ⟨by rw [countP_eligible_replicate]; norm_num [maxScanFiles],
   (scan_ceiling 1024 [] _
     (by rw [countP_eligible_replicate]; norm_num [maxScanFiles])).1⟩

/-- C8: calculate_file_hash returns the sentinel instead of raising when the
file is oversized or a permission or I/O error occurs, and consequently
every member of every returned duplicate group has size at most the 100 MiB
cutoff — a file whose size exceeds the cutoff never appears in any group. -/
theorem hash_sentinel_no_oversized_member (minSize : Nat) (exts : List String)
    (files : List SrcFile) :
    (∀ f : SrcFile, f.statOk = false ∨ f.readable = false ∨ maxFileSize < f.size →
      calculate_file_hash f = none) ∧
    ∀ hg ∈ (scan_directory minSize exts files).duplicates, ∀ fi ∈ hg.2,
      fi.size ≤ maxFileSize := by
  refine ⟨fun f h => hash_error_or_oversized_none f h, ?_⟩
  intro hg hmem fi hfi
  rcases scan_directory_duplicates_cases minSize exts files with hd | hd
  · rw [hd] at hmem
    exact absurd hmem (List.not_mem_nil _)
  rw [hd] at hmem
  unfold find_duplicates at hmem
  rcases mem_findDup_foldl _ _ hg hmem with h0 | ⟨b, hb, _, hsort, _⟩
  · exact absurd h0 (List.not_mem_nil _)
  have hfi' : fi ∈ b.2 := by
    rw [hsort] at hfi
    exact (sortByMtimeDesc_perm b.2).mem_iff.mp hfi
  exact scanFold_bucket_size minSize exts files ⟨[], 0⟩
    (fun b hb => absurd hb (List.not_mem_nil _)) b hb fi hfi'

/-- A readable file one byte over the 100 MiB cutoff. -/
def hugeFile : SrcFile :=
  ⟨"huge.bin", "huge.bin", ".bin", true, true, true, 100 * 1024 * 1024 + 1, 0, 9⟩

theorem hash_sentinel_no_oversized_member_witness :
    (hugeFile.statOk = false ∨ hugeFile.readable = false ∨
      maxFileSize < hugeFile.size) ∧
    calculate_file_hash hugeFile = none ∧
    ((100, [(⟨"b.txt", 1, 1672531200⟩ : FileInfo), ⟨"a.txt", 1, 1577836800⟩]) ∈
      (scan_directory 0 [] [fileA, fileB, fileC]).duplicates) ∧
    (⟨"a.txt", 1, 1577836800⟩ : FileInfo).size ≤ maxFileSize :=
  ⟨Or.inr (Or.inr (by decide)),
   (hash_sentinel_no_oversized_member 0 [] [fileA, fileB, fileC]).1 hugeFile
     (Or.inr (Or.inr (by decide))),
   by decide,
   (hash_sentinel_no_oversized_member 0 [] [fileA, fileB, fileC]).2
     (100, [⟨"b.txt", 1, 1672531200⟩, ⟨"a.txt", 1, 1577836800⟩]) (by decide)
     ⟨"a.txt", 1, 1577836800⟩ (by decide)⟩

end PCMD
